import Mathlib

/-!
Verification development for the `universal-website-scraper` backend.

The Python sources are shallowly embedded:
* `backend/scraper/utils.py` — text and URL helpers (`sanitize_text`,
  `truncate_text`, `clean_url`, `make_absolute_url`, `is_valid_url`);
* `backend/scraper/section_parser.py` — the `SectionParser` class (the second,
  authoritative definition in that file), operating on a `Node` tree standing
  for the DOM that the HTML-query collaborator (BeautifulSoup) produces;
* `backend/scraper/engine.py` — the `ScraperEngine` control flow, with the
  network/browser collaborators given as an oracle environment;
* `backend/scraper/dynamic_scraper.py` — the infinite-scroll and pagination
  loops, with page measurements and "next page" lookups given as oracles.

The `urllib.parse` collaborator (`urljoin`, `urlsplit`) is modelled after the
CPython implementation; `urlparse` path parameters (`;`-segments) are kept as
part of the path, which coincides with CPython on URLs that carry none, and
the model is total: it does not raise CPython's `ValueError` on a netloc with
unbalanced square brackets (no URL in this development has one).
-/

namespace Scraper

/-- Python whitespace characters, as matched by `\s` and `str.strip()`
(ASCII range: space, tab, newline, carriage return, vertical tab, form feed). -/
def pyWs (c : Char) : Bool :=
  c == ' ' || c == '\t' || c == '\n' || c == '\r' || c == Char.ofNat 11 || c == Char.ofNat 12

/-- `re.sub(r"\s+", " ", l)`: replace each maximal whitespace run by one space. -/
def collapseWs : List Char → List Char
  | [] => []
  | [c] => if pyWs c then [' '] else [c]
  | a :: b :: t =>
    if pyWs a then
      if pyWs b then collapseWs (b :: t) else ' ' :: collapseWs (b :: t)
    else a :: collapseWs (b :: t)

/-- Remove the longest suffix of characters satisfying `p` (Python `str.rstrip`). -/
def dropTrail (p : Char → Bool) : List Char → List Char
  | [] => []
  | a :: l =>
    match dropTrail p l with
    | [] => if p a then [] else [a]
    | r => a :: r

/-- Python `str.strip()` on a character list. -/
def stripL (l : List Char) : List Char := dropTrail pyWs (l.dropWhile pyWs)

/-- Python `str.strip()`. -/
def pyStrip (s : String) : String := ⟨stripL s.data⟩

/-- Python `s.startswith(pre)`. -/
def pyStartsWith (s pre : String) : Bool := pre.data.isPrefixOf s.data

/-- Python `s.upper()` (character-wise, as for the ASCII tag names it is
applied to). -/
def pyUpper (s : String) : String := ⟨s.data.map Char.toUpper⟩

/-- `utils.sanitize_text`: `re.sub(r"\s+", " ", text).strip()`, with the
falsy-input guard of the source. -/
def sanitize_text (text : String) : String :=
  if text = "" then "" else ⟨stripL (collapseWs text.data)⟩

/-- `utils.truncate_text`: return the text and a truncation flag, appending
`"..."` when the text is longer than `maxLength`. -/
def truncate_text (text : String) (maxLength : Nat) : String × Bool :=
  if text = "" || text.length ≤ maxLength then (text, false)
  else (⟨text.data.take maxLength⟩ ++ "...", true)

/-- `utils.clean_url` on a character list: strip, default the scheme to
https when the string does not already start with `http://` or `https://`,
and remove trailing slashes. -/
def cleanUrlL (l : List Char) : List Char :=
  if l = [] then l
  else
    let s := stripL l
    let s :=
      if "http://".data.isPrefixOf s || "https://".data.isPrefixOf s then s
      else "https://".data ++ s
    dropTrail (· == '/') s

/-- `utils.clean_url`. -/
def clean_url (url : String) : String := ⟨cleanUrlL url.data⟩

/-- Process-wide configuration (`backend/config.py`), restricted to the values
the embedded components consume. -/
structure ScraperCfg where
  JS_FALLBACK_MIN_TEXT : Nat := 400
  MAX_DEPTH : Nat := 3
  SCROLL_ATTEMPTS : Nat := 3
  MAX_RAW_HTML_LENGTH : Nat := 10000
  MAX_LINK_TEXT_LENGTH : Nat := 200
  MAX_ALT_TEXT_LENGTH : Nat := 200
  ALLOWED_SCHEMES : List String := ["http", "https"]

/-- The configuration instance (`config = ScraperConfig()`). -/
def config : ScraperCfg := {}

/-! ### Model of the `urllib.parse` collaborator -/

/-- Characters allowed in a URL scheme after the leading letter. -/
def schemeChar (c : Char) : Bool := c.isAlphanum || c == '+' || c == '-' || c == '.'

/-- Scheme extraction of `urlsplit`: the text before the first `:` is taken as
the scheme when it starts with a letter and consists of scheme characters. -/
def splitScheme (l : List Char) : Option (List Char × List Char) :=
  let pre := l.takeWhile (fun c => c != ':')
  match l.dropWhile (fun c => c != ':') with
  | [] => none
  | _ :: rest =>
    match pre with
    | [] => none
    | c :: _ =>
      if c.isAlpha && pre.all schemeChar then some (pre.map Char.toLower, rest) else none

/-- Netloc extraction of `urlsplit`: after a leading `//`, the netloc extends to
the first `/`, `?` or `#`. -/
def splitNetloc (l : List Char) : List Char × List Char :=
  if "//".data.isPrefixOf l then
    let r := l.drop 2
    (r.takeWhile (fun c => c != '/' && c != '?' && c != '#'),
     r.dropWhile (fun c => c != '/' && c != '?' && c != '#'))
  else ([], l)

/-- Python `s.split(ch, 1)` guarded by `ch in s`. -/
def splitOnceAt (ch : Char) (l : List Char) : List Char × List Char :=
  if l.contains ch then
    (l.takeWhile (fun c => c != ch), (l.dropWhile (fun c => c != ch)).drop 1)
  else (l, [])

/-- The five components produced by `urlsplit`. -/
structure SplitUrl where
  scheme : List Char
  netloc : List Char
  path : List Char
  query : List Char
  frag : List Char

/-- Model of `urllib.parse.urlsplit(l, scheme := dflt)`. -/
def urlsplitL (dflt : List Char) (l : List Char) : SplitUrl :=
  let (scheme, rest) :=
    match splitScheme l with
    | some (s, r) => (s, r)
    | none => (dflt, l)
  let (netloc, rest) := splitNetloc rest
  let (rest, frag) := splitOnceAt '#' rest
  let (path, query) := splitOnceAt '?' rest
  { scheme, netloc, path, query, frag }

/-- Model of `urllib.parse.urlunsplit`. -/
def urlunsplitL (u : SplitUrl) : List Char :=
  let url := u.path
  let url :=
    if !u.netloc.isEmpty || "//".data.isPrefixOf url then
      let url := if !url.isEmpty && url.head? != some '/' then '/' :: url else url
      "//".data ++ u.netloc ++ url
    else url
  let url := if !u.scheme.isEmpty then u.scheme ++ ':' :: url else url
  let url := if !u.query.isEmpty then url ++ '?' :: u.query else url
  if !u.frag.isEmpty then url ++ '#' :: u.frag else url

/-- `urllib.parse.uses_relative`. -/
def usesRelative : List (List Char) :=
  ["", "ftp", "http", "gopher", "nntp", "imap", "wais", "file", "https", "shttp",
   "mms", "prospero", "rtsp", "rtspu", "sftp", "svn", "svn+ssh", "ws", "wss"].map String.data

/-- `urllib.parse.uses_netloc`. -/
def usesNetloc : List (List Char) :=
  ["", "ftp", "http", "gopher", "nntp", "telnet", "imap", "wais", "file", "mms",
   "https", "shttp", "snews", "prospero", "rtsp", "rtspu", "rsync", "svn",
   "svn+ssh", "sftp", "nfs", "git", "git+ssh", "ws", "wss",
   "itms-services"].map String.data

/-- Dot-segment resolution loop of `urljoin` (`..` pops, `.` is skipped). -/
def resolveSegs (acc : List (List Char)) : List (List Char) → List (List Char)
  | [] => acc
  | seg :: rest =>
    if seg = "..".data then resolveSegs acc.dropLast rest
    else if seg = ".".data then resolveSegs acc rest
    else resolveSegs (acc ++ [seg]) rest

/-- `segments[1:-1] = filter(None, segments[1:-1])` of `urljoin`. -/
def filterMiddle (segs : List (List Char)) : List (List Char) :=
  match segs with
  | [] => []
  | [s] => [s]
  | s :: rest =>
    match rest.getLast? with
    | none => [s]
    | some last => s :: ((rest.dropLast.filter (fun x => !x.isEmpty)) ++ [last])

/-- Model of `urllib.parse.urljoin` (CPython resolution algorithm). -/
def urljoinL (base url : List Char) : List Char :=
  if base.isEmpty then url
  else if url.isEmpty then base
  else
    let b := urlsplitL [] base
    let u := urlsplitL b.scheme url
    if u.scheme ≠ b.scheme || !usesRelative.contains u.scheme then url
    else if usesNetloc.contains u.scheme && !u.netloc.isEmpty then urlunsplitL u
    else
      let netloc := if usesNetloc.contains u.scheme then b.netloc else u.netloc
      if u.path.isEmpty then
        let query := if u.query.isEmpty then b.query else u.query
        urlunsplitL { scheme := u.scheme, netloc, path := b.path, query, frag := u.frag }
      else
        let baseParts := b.path.splitOn '/'
        let baseParts :=
          if baseParts.getLast? != some ([] : List Char) then baseParts.dropLast else baseParts
        let segments :=
          if u.path.head? == some '/' then u.path.splitOn '/'
          else filterMiddle (baseParts ++ u.path.splitOn '/')
        let resolved := resolveSegs [] segments
        let resolved :=
          if segments.getLast? == some ".".data || segments.getLast? == some "..".data then
            resolved ++ [[]]
          else resolved
        let path := List.intercalate ['/'] resolved
        let path := if path.isEmpty then ['/'] else path
        urlunsplitL { scheme := u.scheme, netloc, path, query := u.query, frag := u.frag }

/-- `utils.is_valid_url`: parse and require a scheme, a netloc, and an allowed
scheme. -/
def is_valid_url (url : String) : Bool :=
  let u := urlsplitL [] url.data
  if u.scheme.isEmpty || u.netloc.isEmpty then false
  else config.ALLOWED_SCHEMES.contains (⟨u.scheme⟩ : String)

/-- `utils.make_absolute_url`: protocol-relative URLs get `https:`, absolute
http/https URLs pass through, everything else is joined against the base. -/
def make_absolute_url (url baseUrl : String) : String :=
  if url = "" then url
  else if pyStartsWith url "//" then "https:" ++ url
  else if pyStartsWith url "http://" || pyStartsWith url "https://" then url
  else ⟨urljoinL baseUrl.data url.data⟩

/-! ### DOM model (the tree produced by the HTML-query collaborator) -/

/-- A DOM node: an element with tag, attributes and children, or a text node. -/
inductive Node where
  | elem (tag : String) (attrs : List (String × String)) (children : List Node)
  | txt (s : String)
deriving Repr

/- All text-node strings below a node, in document order (BeautifulSoup's
`_all_strings`). -/
mutual

/-- Text pieces of one node. -/
def Node.textPieces : Node → List String
  | .txt s => [s]
  | .elem _ _ cs => Node.textPiecesList cs

def Node.textPiecesList : List Node → List String
  | [] => []
  | n :: ns => Node.textPieces n ++ Node.textPiecesList ns

end

/- All descendants of a node in document (pre-)order, the node excluded
(the search space of `Tag.find_all`). -/
mutual

/-- Descendants of one node, the node excluded. -/
def Node.descendants : Node → List Node
  | .txt _ => []
  | .elem _ _ cs => Node.descList cs

def Node.descList : List Node → List Node
  | [] => []
  | n :: ns => n :: Node.descendants n ++ Node.descList ns

end

/-- The tag name of an element (`Tag.name`); `""` for a text node. -/
def Node.tagName : Node → String
  | .elem t _ _ => t
  | .txt _ => ""

/-- Whether a node is an element bearing one of the given tags. -/
def Node.isElemOf (tags : List String) : Node → Bool
  | .elem t _ _ => tags.contains t
  | .txt _ => false

/-- Whether a node is an element with exactly this tag. -/
def tagIs (t : String) (n : Node) : Bool := Node.isElemOf [t] n

/-- Attribute lookup (`Tag.get`): the first attribute with the given key. -/
def Node.getAttr (n : Node) (key : String) : Option String :=
  match n with
  | .elem _ attrs _ => (attrs.find? (fun p => p.1 == key)).map (·.2)
  | .txt _ => none

/-- The direct children of an element (`recursive=False` search space). -/
def Node.directChildren : Node → List Node
  | .elem _ _ cs => cs
  | .txt _ => []

/-- `el.find_all(tags)`: descendant elements with one of the tags, document
order. -/
def Node.findAll (tags : List String) (n : Node) : List Node :=
  n.descendants.filter (Node.isElemOf tags)

/-- `soup.find_all(tags)` over the whole parsed document (top-level nodes
included in the search space). -/
def soupFindAll (tags : List String) (soup : List Node) : List Node :=
  (Node.descList soup).filter (Node.isElemOf tags)

/-- `el.get_text(sep, strip=True)`: strip every text piece, drop the empty
ones, join with `sep`. -/
def getTextSep (sep : String) (n : Node) : String :=
  String.intercalate sep (((Node.textPieces n).map pyStrip).filter (· ≠ ""))

/- Serialization `str(el)` of the HTML-query collaborator (attribute escaping
is immaterial to the embedded claims). -/
mutual

/-- Serialize one node. -/
def renderNode : Node → String
  | .txt s => s
  | .elem t attrs cs =>
    "<" ++ t ++ String.join (attrs.map (fun p => " " ++ p.1 ++ "=\"" ++ p.2 ++ "\"")) ++ ">"
      ++ renderList cs ++ "</" ++ t ++ ">"

def renderList : List Node → String
  | [] => ""
  | n :: ns => renderNode n ++ renderList ns

end

/-! ### `SectionParser` (second, authoritative class of `section_parser.py`) -/

/-- An output link `{text, href}`. -/
structure Link where
  text : String
  href : String
deriving Repr, DecidableEq

/-- An output image `{src, alt}`. -/
structure Image where
  src : String
  alt : String
deriving Repr, DecidableEq

/-- The `content` dictionary of a section. -/
structure SectionContent where
  headings : List String
  text : String
  links : List Link
  images : List Image
  lists : List (List String)
  tables : List (List (List String))
deriving Repr, DecidableEq

/-- A parsed section dictionary. -/
structure Sect where
  id : String
  type : String
  label : String
  sourceUrl : String
  content : SectionContent
  rawHtml : String
  truncated : Bool
deriving Repr, DecidableEq

/-- The semantic landmark tags, in the order the source iterates them. -/
def landmarkTags : List String :=
  ["main", "section", "article", "nav", "aside", "footer", "header"]

/-- The heading tags. -/
def headingTags : List String := ["h1", "h2", "h3", "h4", "h5", "h6"]

/-- The body of the link-extraction loop of `_extract_content`: skip `a`
elements without an `href` attribute (the `href=True` filter) and hrefs that
start with `#`, `javascript:` or `mailto:`; truncate the link text and resolve
the href against the base URL. -/
def linkOf (baseUrl : String) (a : Node) : Option Link :=
  match a.getAttr "href" with
  | none => none
  | some href =>
    if pyStartsWith href "#" || pyStartsWith href "javascript:"
        || pyStartsWith href "mailto:" then none
    else some { text := (truncate_text (getTextSep "" a) config.MAX_LINK_TEXT_LENGTH).1,
                href := make_absolute_url href baseUrl }

/-- The body of the image-extraction loop of `_extract_content`: skip `img`
elements without a `src` attribute (the `src=True` filter); truncate the alt
text and resolve the src against the base URL. No other filtering occurs. -/
def imageOf (baseUrl : String) (img : Node) : Option Image :=
  match img.getAttr "src" with
  | none => none
  | some src =>
    some { src := make_absolute_url src baseUrl,
           alt := (truncate_text ((img.getAttr "alt").getD "") config.MAX_ALT_TEXT_LENGTH).1 }

/-- `SectionParser._extract_content`. -/
def extractContent (el : Node) (baseUrl : String) : SectionContent :=
  let headings := ((el.findAll headingTags).map (getTextSep "")).filter (· ≠ "")
  let text := sanitize_text (getTextSep " " el)
  let links := (el.findAll ["a"]).filterMap (linkOf baseUrl)
  let images := (el.findAll ["img"]).filterMap (imageOf baseUrl)
  let lists := (el.findAll ["ul", "ol"]).filterMap (fun ul =>
    let items : List String := ((ul.findAll ["li"]).map (getTextSep "")).filter (· ≠ "")
    if items = [] then none else some items)
  let tables := (el.findAll ["table"]).filterMap (fun table =>
    let rows : List (List String) := (table.findAll ["tr"]).filterMap (fun tr =>
      let row : List String := ((tr.findAll ["td", "th"]).map (getTextSep "")).filter (· ≠ "")
      if row = [] then none else some row)
    if rows = [] then none else some rows)
  { headings, text, links, images, lists, tables }

/-- `SectionParser._generate_label`: first heading truncated to 100 characters,
else a non-empty `aria-label` truncated to 100 characters, else the uppercased
tag name. -/
def generateLabel (el : Node) (content : SectionContent) : String :=
  match content.headings with
  | h :: _ => ⟨h.data.take 100⟩
  | [] =>
    match el.getAttr "aria-label" with
    | some v => if v ≠ "" then ⟨v.data.take 100⟩ else pyUpper el.tagName
    | none => pyUpper el.tagName

/-- `SectionParser._process_section`: drop candidates with empty extracted
text, otherwise build the section dictionary. -/
def processSection (el : Node) (rawHtml0 : String) (index : Nat) (baseUrl : String) :
    Option Sect :=
  let content := extractContent el baseUrl
  if content.text = "" then none
  else
    let rawTrunc := truncate_text rawHtml0 config.MAX_RAW_HTML_LENGTH
    some { id := el.tagName ++ "-" ++ toString index,
           type := el.tagName,
           label := generateLabel el content,
           sourceUrl := baseUrl,
           content := content,
           rawHtml := rawTrunc.1,
           truncated := rawTrunc.2 }

/-- `SectionParser._find_semantic_sections`: for each landmark tag in the fixed
order, all elements of that tag in document order (so the result is grouped by
tag, not globally in document order). -/
def findSemanticSections (soup : List Node) : List (Node × String) :=
  landmarkTags.flatMap (fun t =>
    ((Node.descList soup).filter (tagIs t)).map (fun el => (el, renderNode el)))

/-- `SectionParser._find_content_divs`: generic `div` containers with ≥ 300
characters of sanitized text and ≥ 2 direct `div` children. -/
def findContentDivs (soup : List Node) : List (Node × String) :=
  ((Node.descList soup).filter (tagIs "div")).filterMap (fun div =>
    let text := sanitize_text (getTextSep " " div)
    if text.length < 300 then none
    else if (div.directChildren.filter (tagIs "div")).length < 2 then none
    else some (div, renderNode div))

/-- Candidate discovery of `parse_sections`: semantic sections, extended by
content divs when fewer than two semantic candidates were found. -/
def discoverCandidates (soup : List Node) : List (Node × String) :=
  let semantic := findSemanticSections soup
  if semantic.length < 2 then semantic ++ findContentDivs soup else semantic

/-- The first 300 characters of a text (`text[:300]`). -/
def pref300 (s : String) : String := ⟨s.data.take 300⟩

/-- The accumulation loop of `parse_sections`: process each enumerated
candidate, skip tiny `nav` sections, skip empty text, skip fingerprints already
accepted (`hash` is the collaborator fingerprint function `h`). -/
def parseLoop (baseUrl : String) (h : String → Int) :
    List (Nat × (Node × String)) → List Int → List Sect
  | [], _ => []
  | (idx, (el, raw)) :: rest, seen =>
    match processSection el raw idx baseUrl with
    | none => parseLoop baseUrl h rest seen
    | some s =>
      if s.type = "nav" ∧ s.content.text.length < 50 then parseLoop baseUrl h rest seen
      else if s.content.text = "" then parseLoop baseUrl h rest seen
      else
        let sig := h (pref300 s.content.text)
        if sig ∈ seen then parseLoop baseUrl h rest seen
        else s :: parseLoop baseUrl h rest (sig :: seen)

/-- `soup.body`: the first `body` element of the document. -/
def soupBody (soup : List Node) : Option Node :=
  (Node.descList soup).find? (tagIs "body")

/-- `SectionParser._create_fallback_section`: one synthesized section over the
document body, with empty sub-collections. -/
def fallbackSection (soup : List Node) (baseUrl : String) : Sect :=
  let body := soupBody soup
  let text :=
    match body with
    | some b => sanitize_text (getTextSep " " b)
    | none => ""
  let rawTrunc :=
    truncate_text (match body with | some b => renderNode b | none => "")
      config.MAX_RAW_HTML_LENGTH
  { id := "main-0",
    type := "section",
    label := "Main Content",
    sourceUrl := baseUrl,
    content := { headings := [], text := text, links := [], images := [],
                 lists := [], tables := [] },
    rawHtml := rawTrunc.1,
    truncated := rawTrunc.2 }

/-- The sections that survive discovery, extraction, filtering and
deduplication (the loop of `parse_sections` before the fallback test). -/
def survivingSections (soup : List Node) (baseUrl : String) (h : String → Int) :
    List Sect :=
  parseLoop baseUrl h (discoverCandidates soup).enum []

/-- `SectionParser.parse_sections`. -/
def parseSections (soup : List Node) (baseUrl : String) (h : String → Int) :
    List Sect :=
  let sections := survivingSections soup baseUrl h
  if sections = [] then [fallbackSection soup baseUrl] else sections

/-! ### `ScraperEngine` (`engine.py`) -/

/-- An entry of `result["errors"]`. -/
structure ErrorEntry where
  message : String
  phase : String
deriving Repr, DecidableEq

/-- `result["interactions"]`. -/
structure Interactions where
  clicks : List String
  scrolls : Nat
  pages : List String
deriving Repr, DecidableEq

/-- `result["meta"]` (per `StaticScraper.extract_metadata`). -/
structure Meta where
  title : String := ""
  description : String := ""
  language : String := "en"
  canonical : Option String := none
deriving Repr, DecidableEq

/-- A fetched page as handed to `SectionParser`: the serialized HTML together
with the DOM the HTML-query collaborator parses it into. -/
structure ParsedPage where
  html : String
  soup : List Node

/-- Oracle for the network/browser collaborators of one scrape call. -/
structure FetchEnv where
  /-- `StaticScraper.fetch` outcome: `none` is a fetch failure. -/
  staticPage : Option ParsedPage
  /-- `StaticScraper.extract_metadata` outcome. -/
  staticMeta : Meta := {}
  /-- `DynamicScraper.fetch` outcome: `none` is a render failure. -/
  dynamicPage : Option ParsedPage := none
  /-- `DynamicScraper.perform_interactions` outcome. -/
  dynamicInteractions : Interactions := { clicks := [], scrolls := 0, pages := [] }
  /-- The Python `hash` fingerprint function used by the parser. -/
  textHash : String → Int := fun _ => 0

/-- Instrumentation: which fetch stages a scrape run attempted. -/
inductive StageEv where
  | staticFetch
  | dynamicFetch
deriving Repr, DecidableEq

/-- The engine's mutable `self.result`, plus the stage trace (the trace is
instrumentation for the theorems, not a field of the Python dictionary). -/
structure EngState where
  url : String
  meta : Meta
  sections : List Sect
  interactions : Interactions
  errors : List ErrorEntry
  trace : List StageEv

/-- `ScraperEngine.__init__`: clean the URL and build the initial result.
The `max_depth` argument is accepted and, as in the source, never used. -/
def engineInit (inputUrl : String) (_useJs : Option Bool) (_maxDepth : Nat) : EngState :=
  let u := clean_url inputUrl
  { url := u,
    meta := {},
    sections := [],
    interactions := { clicks := [], scrolls := 0, pages := [u] },
    errors := [],
    trace := [] }

/-- Truthiness of the optional `use_js` flag (`if self.use_js`). -/
def optTrue (b : Option Bool) : Bool := b == some true

/-- `ScraperEngine._static`: on fetch success store metadata and, when the
HTML is non-empty, the parsed sections; report success. -/
def staticStage (env : FetchEnv) (st : EngState) : Bool × EngState :=
  let st := { st with trace := st.trace ++ [StageEv.staticFetch] }
  match env.staticPage with
  | none => (false, st)
  | some page =>
    let st := { st with meta := env.staticMeta }
    let st :=
      if page.html ≠ "" then
        { st with sections := parseSections page.soup st.url env.textHash }
      else st
    (true, st)

/-- `ScraperEngine._dynamic`: on render success replace the sections (when the
HTML is non-empty) and the interactions. -/
def dynamicStage (env : FetchEnv) (st : EngState) : EngState :=
  let st := { st with trace := st.trace ++ [StageEv.dynamicFetch] }
  match env.dynamicPage with
  | none => st
  | some page =>
    let st :=
      if page.html ≠ "" then
        { st with sections := parseSections page.soup st.url env.textHash }
      else st
    { st with interactions := env.dynamicInteractions }

/-- `ScraperEngine._low_text`: total extracted text length below the
configured threshold. -/
def lowText (st : EngState) : Bool :=
  (st.sections.map (fun s => s.content.text.length)).sum < config.JS_FALLBACK_MIN_TEXT

/-- `ScraperEngine._scrape_internal`: validate, run the static stage, then run
the dynamic stage when `use_js` is truthy or the static text is low. -/
def scrapeInternal (env : FetchEnv) (useJs : Option Bool) (st : EngState) : EngState :=
  if ¬ is_valid_url st.url then
    { st with errors := st.errors ++ [{ message := "Invalid URL", phase := "validation" }] }
  else
    let r := staticStage env st
    if optTrue useJs || (r.1 && lowText r.2) then dynamicStage env r.2 else r.2

/-- One whole engine run (`__init__` followed by `_scrape_internal`; the
global-deadline wrapper of `scrape` concerns wall-clock time only). -/
def scrapeEngine (inputUrl : String) (useJs : Option Bool) (maxDepth : Nat)
    (env : FetchEnv) : EngState :=
  scrapeInternal env useJs (engineInit inputUrl useJs maxDepth)

/-! ### `DynamicScraper` loops (`dynamic_scraper.py`) -/

/-- `DynamicScraper._scroll_for_content`: each iteration measures the height
(oracle index `i`), scrolls, re-measures (index `i + 1`), increments the
counter, and breaks when the two measurements are equal. -/
def scrollLoop (heights : Nat → Int) : Nat → Nat → Nat
  | 0, _ => 0
  | k + 1, i => if heights (i + 1) = heights i then 1 else 1 + scrollLoop heights k (i + 2)

/-- The scroll loop at its configured attempt budget. -/
def scrollForContent (heights : Nat → Int) (attempts : Nat) : Nat :=
  scrollLoop heights attempts 0

/-- `DynamicScraper._handle_pagination`: up to the iteration budget, ask the
oracle for the page reached by the first matching "next" candidate (`none`
means no candidate matched, which ends the loop); append unseen URLs; also
count the successful hops. -/
def paginationLoop (next : Nat → Option String) :
    Nat → Nat → List String → List String × Nat
  | 0, _, visited => (visited, 0)
  | k + 1, i, visited =>
    match next i with
    | none => (visited, 0)
    | some u =>
      let visited := if u ∈ visited then visited else visited ++ [u]
      let r := paginationLoop next k (i + 1) visited
      (r.1, r.2 + 1)

/-- The pagination loop at its source bound `config.MAX_DEPTH - 1`,
parameterized by the configured depth `md`. -/
def handlePagination (md : Nat) (next : Nat → Option String) (visited : List String) :
    List String × Nat :=
  paginationLoop next (md - 1) 0 visited

/-! ### Whitespace-run machinery -/

/-- No two adjacent characters of the list are both whitespace. -/
def noRunL : List Char → Bool
  | [] => true
  | [_] => true
  | a :: b :: t => (!(pyWs a && pyWs b)) && noRunL (b :: t)

/-- A string contains no run of two or more consecutive whitespace characters. -/
def noWsRun (s : String) : Bool := noRunL s.data

lemma noRunL_tail {a : Char} {l : List Char} (h : noRunL (a :: l) = true) :
    noRunL l = true := by
  cases l with
  | nil => rfl
  | cons b t => simp only [noRunL, Bool.and_eq_true] at h; exact h.2

lemma noRunL_cons {a : Char} {l : List Char} (ha : pyWs a = false)
    (h : noRunL l = true) : noRunL (a :: l) = true := by
  cases l with
  | nil => rfl
  | cons b t => simp [noRunL, ha, h]

lemma noRunL_cons_cons {a b : Char} {t : List Char} (hab : (pyWs a && pyWs b) = false)
    (h : noRunL (b :: t) = true) : noRunL (a :: b :: t) = true := by
  simp [noRunL, hab, h]

lemma collapseWs_head_nonWs {b : Char} (r : List Char) (hb : pyWs b = false) :
    ∃ t, collapseWs (b :: r) = b :: t := by
  cases r with
  | nil => exact ⟨[], by simp [collapseWs, hb]⟩
  | cons e r' => exact ⟨collapseWs (e :: r'), by simp [collapseWs, hb]⟩

lemma noRunL_collapseWs (l : List Char) : noRunL (collapseWs l) = true := by
  induction l with
  | nil => rfl
  | cons a t ih =>
    cases t with
    | nil => cases ha : pyWs a <;> simp [collapseWs, ha, noRunL]
    | cons b r =>
      cases ha : pyWs a with
      | false =>
        rw [show collapseWs (a :: b :: r) = a :: collapseWs (b :: r) by
          simp [collapseWs, ha]]
        exact noRunL_cons ha ih
      | true =>
        cases hb : pyWs b with
        | true =>
          rw [show collapseWs (a :: b :: r) = collapseWs (b :: r) by
            simp [collapseWs, ha, hb]]
          exact ih
        | false =>
          rw [show collapseWs (a :: b :: r) = ' ' :: collapseWs (b :: r) by
            simp [collapseWs, ha, hb]]
          obtain ⟨t', ht'⟩ := collapseWs_head_nonWs r hb
          rw [ht']
          exact noRunL_cons_cons (by simp [hb]) (ht' ▸ ih)

lemma noRunL_dropWhile (p : Char → Bool) (l : List Char) (h : noRunL l = true) :
    noRunL (l.dropWhile p) = true := by
  induction l with
  | nil => exact h
  | cons a t ih =>
    rw [List.dropWhile_cons]
    split
    · exact ih (noRunL_tail h)
    · exact h

lemma dropTrail_cons_head (p : Char → Bool) (b : Char) (m : List Char) :
    dropTrail p (b :: m) = [] ∨ ∃ ys, dropTrail p (b :: m) = b :: ys := by
  rw [dropTrail]
  cases hdt : dropTrail p m with
  | nil =>
    cases hp : p b with
    | true => exact Or.inl rfl
    | false => exact Or.inr ⟨[], rfl⟩
  | cons y ys => exact Or.inr ⟨y :: ys, rfl⟩

lemma noRunL_dropTrail (p : Char → Bool) (l : List Char) (h : noRunL l = true) :
    noRunL (dropTrail p l) = true := by
  induction l with
  | nil => exact h
  | cons a t ih =>
    rw [dropTrail]
    cases hdt : dropTrail p t with
    | nil =>
      cases hp : p a <;> simp [noRunL]
    | cons y ys =>
      cases t with
      | nil => simp [dropTrail] at hdt
      | cons b m =>
        have hyb : y = b := by
          rcases dropTrail_cons_head p b m with h0 | ⟨zs, hzs⟩
          · rw [h0] at hdt; exact absurd hdt (by simp)
          · rw [hzs] at hdt; injection hdt with h1 _; exact h1.symm
        have h1 := h
        simp only [noRunL, Bool.and_eq_true, Bool.not_eq_true'] at h1
        have htail := ih (noRunL_tail h)
        rw [hdt] at htail
        exact noRunL_cons_cons (by rw [hyb]; exact h1.1) htail

/-- The output of `sanitize_text` never contains two adjacent whitespace
characters. -/
lemma noWsRun_sanitize (s : String) : noWsRun (sanitize_text s) = true := by
  unfold sanitize_text
  split
  · rfl
  · show noRunL (stripL (collapseWs s.data)) = true
    exact noRunL_dropTrail _ _ (noRunL_dropWhile _ _ (noRunL_collapseWs s.data))

/-! ### `dropTrail` endpoint lemmas (for `clean_url`) -/

lemma dropTrail_getLast (p : Char → Bool) (l : List Char) :
    ∀ x, (dropTrail p l).getLast? = some x → p x = false := by
  induction l with
  | nil => intro x hx; simp [dropTrail] at hx
  | cons a t ih =>
    intro x hx
    rw [dropTrail] at hx
    rcases hdt : dropTrail p t with _ | ⟨y, ys⟩ <;> rw [hdt] at hx
    · cases hp : p a with
      | true => simp [hp] at hx
      | false => simp [hp] at hx; simp [← hx, hp]
    · rw [List.getLast?_cons_cons] at hx
      exact ih x (hdt ▸ hx)

lemma dropTrail_eq_self (p : Char → Bool) (l : List Char)
    (h : ∀ x, l.getLast? = some x → p x = false) : dropTrail p l = l := by
  induction l with
  | nil => rfl
  | cons a t ih =>
    rw [dropTrail]
    cases t with
    | nil =>
      simp only [dropTrail]
      rw [h a (by simp)]
      simp
    | cons b m =>
      rw [ih (fun x hx => h x (by rw [List.getLast?_cons_cons]; exact hx))]

lemma head_of_isPrefixOf {a : Char} {p l : List Char}
    (h : (a :: p).isPrefixOf l = true) : l.head? = some a := by
  cases l with
  | nil => simp [List.isPrefixOf] at h
  | cons b t =>
    simp only [List.isPrefixOf, Bool.and_eq_true, beq_iff_eq] at h
    simp [h.1]

lemma dropWhile_eq_self_of_head {p : Char → Bool} {l : List Char}
    (h : ∀ x, l.head? = some x → p x = false) : l.dropWhile p = l := by
  cases l with
  | nil => rfl
  | cons a t => rw [List.dropWhile_cons, h a rfl]; simp

lemma pyStartsWith_head (s pre : String) (a : Char) (rest : List Char)
    (hpre : pre.data = a :: rest) (h : pyStartsWith s pre = true) :
    s.data.head? = some a := by
  unfold pyStartsWith at h
  rw [hpre] at h
  exact head_of_isPrefixOf h

/-! ### Claim C10: idempotency of `clean_url` -/

/-- C10 counterexample: `clean_url` is not idempotent. Cleaning `"/"` yields
`"https:"` (the added scheme prefix loses its slashes to `rstrip("/")`), and
cleaning that again prepends another `"https://"`. -/
theorem C10_counterexample :
    clean_url "/" = "https:" ∧
    clean_url (clean_url "/") = "https://https:" ∧
    clean_url (clean_url "/") ≠ clean_url "/" := by
  refine ⟨by decide, by decide, by decide⟩

/-- C10 (amended): `clean_url` is idempotent on every input whose cleaned form
starts with `http://` or `https://` and does not end in a whitespace
character; in general it is not idempotent. -/
theorem C10_clean_url_idem (u : String)
    (h1 : (pyStartsWith (clean_url u) "http://"
            || pyStartsWith (clean_url u) "https://") = true)
    (h2 : (clean_url u).data.getLast?.all (fun x => !pyWs x) = true) :
    clean_url (clean_url u) = clean_url u := by
  have hhead : (clean_url u).data.head? = some 'h' := by
    rcases (Bool.or_eq_true _ _).mp h1 with h | h
    · exact pyStartsWith_head _ "http://" 'h' "ttp://".data (by decide) h
    · exact pyStartsWith_head _ "https://" 'h' "ttps://".data (by decide) h
  have hne : (clean_url u).data ≠ [] := by
    intro hnil; rw [hnil] at hhead; exact absurd hhead (by simp)
  have hlast : ∀ x, (clean_url u).data.getLast? = some x → pyWs x = false := by
    intro x hx
    rw [hx] at h2
    simpa using h2
  have hstrip : stripL (clean_url u).data = (clean_url u).data := by
    unfold stripL
    rw [dropWhile_eq_self_of_head (fun x hx => by
      rw [hhead] at hx; injection hx with hx; rw [← hx]; decide)]
    exact dropTrail_eq_self _ _ hlast
  have hslash : ∀ x, (clean_url u).data.getLast? = some x → (x == '/') = false := by
    have hc : (clean_url u).data = cleanUrlL u.data := rfl
    rw [cleanUrlL] at hc
    by_cases hu : u.data = []
    · rw [if_pos hu] at hc; rw [hu] at hc; exact absurd hc hne
    · rw [if_neg hu] at hc
      intro x hx
      rw [hc] at hx
      exact dropTrail_getLast _ _ x hx
  have hgoal : cleanUrlL (clean_url u).data = (clean_url u).data := by
    rw [cleanUrlL, if_neg hne]
    simp only [hstrip]
    simp only [pyStartsWith] at h1
    rw [if_pos h1]
    exact dropTrail_eq_self _ _ hslash
  show (⟨cleanUrlL (clean_url u).data⟩ : String) = clean_url u
  rw [hgoal]

/-- C10 witness: a URL on which the amended idempotency theorem applies. -/
theorem C10_clean_url_idem_witness :
    clean_url (clean_url "https://example.com/") = clean_url "https://example.com/" :=
  C10_clean_url_idem "https://example.com/" (by decide) (by decide)

/-! ### Structure of `parse_sections` -/

lemma parseSections_eq (soup : List Node) (baseUrl : String) (h : String → Int) :
    parseSections soup baseUrl h =
      if survivingSections soup baseUrl h = [] then [fallbackSection soup baseUrl]
      else survivingSections soup baseUrl h := rfl

lemma extractContent_text (el : Node) (b : String) :
    (extractContent el b).text = sanitize_text (getTextSep " " el) := rfl

lemma processSection_some {el : Node} {raw : String} {idx : Nat} {b : String} {s : Sect}
    (h : processSection el raw idx b = some s) :
    s.content = extractContent el b ∧ (extractContent el b).text ≠ "" ∧
      s.type = el.tagName := by
  simp only [processSection] at h
  split at h
  · exact absurd h (by simp)
  · rename_i hne
    injection h with h
    subst h
    exact ⟨rfl, hne, rfl⟩

lemma parseLoop_cons_none {baseUrl : String} {h : String → Int} {idx : Nat} {el : Node}
    {raw : String} {rest : List (Nat × (Node × String))} {seen : List Int}
    (hp : processSection el raw idx baseUrl = none) :
    parseLoop baseUrl h ((idx, (el, raw)) :: rest) seen = parseLoop baseUrl h rest seen := by
  rw [parseLoop, hp]

lemma parseLoop_cons_some {baseUrl : String} {h : String → Int} {idx : Nat} {el : Node}
    {raw : String} {rest : List (Nat × (Node × String))} {seen : List Int} {s' : Sect}
    (hp : processSection el raw idx baseUrl = some s') :
    parseLoop baseUrl h ((idx, (el, raw)) :: rest) seen =
      (if s'.type = "nav" ∧ s'.content.text.length < 50 then parseLoop baseUrl h rest seen
       else if s'.content.text = "" then parseLoop baseUrl h rest seen
       else if h (pref300 s'.content.text) ∈ seen then parseLoop baseUrl h rest seen
       else s' :: parseLoop baseUrl h rest (h (pref300 s'.content.text) :: seen)) := by
  rw [parseLoop, hp]

/-- Every section emitted by the accumulation loop comes from a processed
candidate, has non-empty text, and carries a fingerprint not yet seen. -/
lemma parseLoop_mem {baseUrl : String} {h : String → Int} :
    ∀ (cands : List (Nat × (Node × String))) (seen : List Int) (s : Sect),
      s ∈ parseLoop baseUrl h cands seen →
      (∃ idx el raw, processSection el raw idx baseUrl = some s) ∧
      s.content.text ≠ "" ∧ h (pref300 s.content.text) ∉ seen := by
  intro cands
  induction cands with
  | nil => intro seen s hs; simp [parseLoop] at hs
  | cons c rest ih =>
    intro seen s hs
    obtain ⟨idx, el, raw⟩ := c
    cases hp : processSection el raw idx baseUrl with
    | none =>
      rw [parseLoop_cons_none hp] at hs
      exact ih seen s hs
    | some s' =>
      rw [parseLoop_cons_some hp] at hs
      split at hs
      · exact ih seen s hs
      · split at hs
        · exact ih seen s hs
        · split at hs
          · exact ih seen s hs
          · rename_i hnav hne hnotin
            rcases List.mem_cons.mp hs with heq | hmem
            · subst heq
              exact ⟨⟨idx, el, raw, hp⟩, hne, hnotin⟩
            · obtain ⟨hex, hne', hni⟩ := ih _ s hmem
              exact ⟨hex, hne', fun hin => hni (List.mem_cons_of_mem _ hin)⟩

/-- The fingerprints of the sections emitted by the accumulation loop are
pairwise distinct. -/
lemma parseLoop_pairwise {baseUrl : String} {h : String → Int} :
    ∀ (cands : List (Nat × (Node × String))) (seen : List Int),
      List.Pairwise (fun a b : Sect =>
        h (pref300 a.content.text) ≠ h (pref300 b.content.text))
        (parseLoop baseUrl h cands seen) := by
  intro cands
  induction cands with
  | nil => intro seen; simp [parseLoop]
  | cons c rest ih =>
    intro seen
    obtain ⟨idx, el, raw⟩ := c
    cases hp : processSection el raw idx baseUrl with
    | none => rw [parseLoop_cons_none hp]; exact ih seen
    | some s' =>
      rw [parseLoop_cons_some hp]
      split
      · exact ih seen
      · split
        · exact ih seen
        · split
          · exact ih seen
          · refine List.Pairwise.cons ?_ (ih _)
            intro b hb heq
            have hni := (parseLoop_mem rest _ b hb).2.2
            exact hni (by rw [← heq]; exact List.mem_cons_self _ _)

lemma fallbackSection_text (soup : List Node) (baseUrl : String) :
    (fallbackSection soup baseUrl).content.text =
      (match soupBody soup with
       | some b => sanitize_text (getTextSep " " b)
       | none => "") := rfl

lemma noWsRun_fallback (soup : List Node) (baseUrl : String) :
    noWsRun (fallbackSection soup baseUrl).content.text = true := by
  rw [fallbackSection_text]
  cases soupBody soup
  · rfl
  · exact noWsRun_sanitize _

/-! ### Claim C1: `parse_sections` never returns an empty list -/

/-- C1: for every document and base URL, `parse_sections` returns at least one
section; whenever zero candidates survive extraction, filtering and
deduplication, the result is exactly the one synthesized fallback section,
typed `"section"`, labeled `"Main Content"`, with id `"main-0"`. -/
theorem C1_nonempty_with_fallback (soup : List Node) (baseUrl : String) (h : String → Int) :
    parseSections soup baseUrl h ≠ [] ∧
    (survivingSections soup baseUrl h = [] →
      parseSections soup baseUrl h = [fallbackSection soup baseUrl] ∧
      (fallbackSection soup baseUrl).type = "section" ∧
      (fallbackSection soup baseUrl).label = "Main Content" ∧
      (fallbackSection soup baseUrl).id = "main-0") := by
  rw [parseSections_eq]
  by_cases hemp : survivingSections soup baseUrl h = []
  · rw [if_pos hemp]
    exact ⟨by simp, fun _ => ⟨rfl, rfl, rfl, rfl⟩⟩
  · rw [if_neg hemp]
    exact ⟨hemp, fun hc => absurd hc hemp⟩

/-- C1 witness: on the empty document no candidate survives, and the result is
the single fallback section. -/
theorem C1_nonempty_with_fallback_witness :
    parseSections ([] : List Node) "https://example.com" (fun _ => 0) ≠ [] ∧
    parseSections ([] : List Node) "https://example.com" (fun _ => 0) =
      [fallbackSection [] "https://example.com"] :=
  ⟨(C1_nonempty_with_fallback [] "https://example.com" (fun _ => 0)).1,
   ((C1_nonempty_with_fallback [] "https://example.com" (fun _ => 0)).2 (by decide)).1⟩

/-! ### Claim C2: section text normalization -/

/-- The constant fingerprint oracle used in the concrete runs. -/
def h0 : String → Int := fun _ => 0

/-- The document `<html><body></body></html>`. -/
def emptyDoc : List Node := [Node.elem "html" [] [Node.elem "body" [] []]]

/-- C2 counterexample: on a document whose body has no text, `parse_sections`
returns the fallback section with **empty** `content.text`, refuting the claim
that every returned section has non-empty text. -/
theorem C2_counterexample :
    parseSections emptyDoc "https://example.com" h0 =
      [fallbackSection emptyDoc "https://example.com"] ∧
    (fallbackSection emptyDoc "https://example.com").content.text = "" :=
  ⟨by decide, by decide⟩

/-- C2 (amended): every section returned by `parse_sections` has text with no
run of two or more consecutive whitespace characters, and whenever at least one
candidate survives the loop (so the fallback is not used) every returned
section's text is also non-empty. -/
theorem C2_text_normalized (soup : List Node) (baseUrl : String) (h : String → Int) :
    (∀ s ∈ parseSections soup baseUrl h, noWsRun s.content.text = true) ∧
    (survivingSections soup baseUrl h ≠ [] →
      ∀ s ∈ parseSections soup baseUrl h, s.content.text ≠ "") := by
  rw [parseSections_eq]
  by_cases hemp : survivingSections soup baseUrl h = []
  · rw [if_pos hemp]
    refine ⟨?_, fun hne => absurd hemp hne⟩
    intro s hs
    rw [List.mem_singleton] at hs
    subst hs
    exact noWsRun_fallback soup baseUrl
  · rw [if_neg hemp]
    constructor
    · intro s hs
      obtain ⟨⟨idx, el, raw, hp⟩, _, _⟩ := parseLoop_mem _ _ s hs
      rw [(processSection_some hp).1, extractContent_text]
      exact noWsRun_sanitize _
    · intro _ s hs
      exact (parseLoop_mem _ _ s hs).2.1

/-- The `main` element of the concrete link document. -/
def mainEl : Node :=
  Node.elem "main" []
    [Node.txt "Welcome page", Node.elem "a" [("href", "/p")] [Node.txt "link"]]

/-- A document whose single landmark contains one relative link. -/
def docLinks : List Node := [Node.elem "html" [] [Node.elem "body" [] [mainEl]]]

/-- The section `parse_sections` produces from `docLinks`. -/
def sectLinks : Sect :=
  { id := "main-0",
    type := "main",
    label := "MAIN",
    sourceUrl := "https://example.com",
    content := { headings := [],
                 text := "Welcome page link",
                 links := [{ text := "link", href := "https://example.com/p" }],
                 images := [],
                 lists := [],
                 tables := [] },
    rawHtml := renderNode mainEl,
    truncated := false }

/-- C2 witness: on `docLinks` a candidate survives, and the amended theorem
yields normalized, non-empty text for its section. -/
theorem C2_text_normalized_witness :
    noWsRun sectLinks.content.text = true ∧ sectLinks.content.text ≠ "" :=
  ⟨(C2_text_normalized docLinks "https://example.com" h0).1 sectLinks (by decide),
   (C2_text_normalized docLinks "https://example.com" h0).2 (by decide) sectLinks (by decide)⟩

/-! ### Claim C6: fingerprint deduplication -/

/-- C6: no two sections returned by one `parse_sections` call share an
identical first-300-character prefix of their `content.text`; this holds for
every fingerprint function `h` (Python's `hash`), because equal prefixes give
equal fingerprints and an already-seen fingerprint is skipped. -/
theorem C6_no_duplicate_fingerprints (soup : List Node) (baseUrl : String)
    (h : String → Int) :
    List.Pairwise (fun a b : Sect => pref300 a.content.text ≠ pref300 b.content.text)
      (parseSections soup baseUrl h) := by
  rw [parseSections_eq]
  split
  · simp
  · exact (parseLoop_pairwise _ _).imp (fun hne heq => hne (congrArg h heq))

/-! ### Claim C3: link and image URL handling -/

lemma extractContent_links (el : Node) (b : String) :
    (extractContent el b).links = (el.findAll ["a"]).filterMap (linkOf b) := rfl

lemma extractContent_images (el : Node) (b : String) :
    (extractContent el b).images = (el.findAll ["img"]).filterMap (imageOf b) := rfl

/-- Every emitted link was built from a raw `href` that passed the three
exclusion tests and was resolved with `make_absolute_url`. -/
lemma extractContent_links_mem {el : Node} {b : String} {l : Link}
    (hl : l ∈ (extractContent el b).links) :
    ∃ raw : String, pyStartsWith raw "#" = false ∧
      pyStartsWith raw "javascript:" = false ∧ pyStartsWith raw "mailto:" = false ∧
      l.href = make_absolute_url raw b := by
  rw [extractContent_links, List.mem_filterMap] at hl
  obtain ⟨a, _, ha⟩ := hl
  unfold linkOf at ha
  split at ha
  · exact absurd ha (by simp)
  · rename_i href _
    split at ha
    · exact absurd ha (by simp)
    · rename_i hc
      injection ha with ha
      subst ha
      simp only [Bool.or_eq_true, not_or, Bool.not_eq_true] at hc
      exact ⟨href, hc.1.1, hc.1.2, hc.2, rfl⟩

/-- Every emitted image src is `make_absolute_url` of the raw `src` attribute
(no filtering at all, data-URIs included). -/
lemma extractContent_images_mem {el : Node} {b : String} {im : Image}
    (him : im ∈ (extractContent el b).images) :
    ∃ raw : String, im.src = make_absolute_url raw b := by
  rw [extractContent_images, List.mem_filterMap] at him
  obtain ⟨img, _, hi⟩ := him
  unfold imageOf at hi
  split at hi
  · exact absurd hi (by simp)
  · injection hi with hi
    subst hi
    rename_i src _
    exact ⟨src, rfl⟩

/-- The `main` element of the data-URI image document. -/
def imgMain : Node :=
  Node.elem "main" []
    [Node.txt "Gallery page", Node.elem "img" [("src", "data:image/png;base64,AA")] []]

/-- A document whose single landmark contains one data-URI image. -/
def docImg : List Node := [Node.elem "html" [] [Node.elem "body" [] [imgMain]]]

/-- C3 counterexample: a data-URI image is **not** excluded — `parse_sections`
emits it, with a src that starts with `data:`, refuting both the data-URI
exclusion and the "never starts with `data:`" guarantee. -/
theorem C3_counterexample :
    ((parseSections docImg "https://example.com" h0).flatMap
        (fun s => s.content.images.map (fun im => im.src))) =
      ["data:image/png;base64,AA"] ∧
    pyStartsWith "data:image/png;base64,AA" "data:" = true :=
  ⟨by decide, by decide⟩

/-- C3 (amended): every link href emitted by `parse_sections` comes from a raw
href that does not start with `#`, `javascript:` or `mailto:` and equals
`make_absolute_url raw baseUrl`; every emitted image src equals
`make_absolute_url raw baseUrl` for its raw `src` attribute, with no exclusion
of data-URIs (the synthesized fallback section emits no links or images). -/
theorem C3_resolved_links_images (soup : List Node) (baseUrl : String)
    (h : String → Int) :
    ∀ s ∈ parseSections soup baseUrl h,
      (∀ l ∈ s.content.links, ∃ raw : String,
        pyStartsWith raw "#" = false ∧ pyStartsWith raw "javascript:" = false ∧
        pyStartsWith raw "mailto:" = false ∧ l.href = make_absolute_url raw baseUrl) ∧
      (∀ im ∈ s.content.images, ∃ raw : String, im.src = make_absolute_url raw baseUrl) := by
  intro s hs
  rw [parseSections_eq] at hs
  split at hs
  · rw [List.mem_singleton] at hs
    subst hs
    constructor
    · intro l hl
      rw [show (fallbackSection soup baseUrl).content.links = [] from rfl] at hl
      exact absurd hl (List.not_mem_nil l)
    · intro im him
      rw [show (fallbackSection soup baseUrl).content.images = [] from rfl] at him
      exact absurd him (List.not_mem_nil im)
  · obtain ⟨⟨idx, el, raw, hp⟩, _, _⟩ := parseLoop_mem _ _ s hs
    rw [(processSection_some hp).1]
    exact ⟨fun l hl => extractContent_links_mem hl,
           fun im him => extractContent_images_mem him⟩

/-- C3 witness: the amended theorem applied to the concrete link document. -/
theorem C3_resolved_links_images_witness :
    ∃ raw : String, pyStartsWith raw "#" = false ∧
      pyStartsWith raw "javascript:" = false ∧ pyStartsWith raw "mailto:" = false ∧
      ({ text := "link", href := "https://example.com/p" } : Link).href =
        make_absolute_url raw "https://example.com" :=
  (C3_resolved_links_images docLinks "https://example.com" h0 sectLinks (by decide)).1
    { text := "link", href := "https://example.com/p" } (by decide)

/-! ### Claims C4 and C5: engine control flow -/

/-- An environment whose static fetch fails. -/
def envStaticFail : FetchEnv := { staticPage := none }

/-- C4 counterexample: when the static fetch fails with `forceDynamic` set, the
engine records **no** fetch `ErrorEntry` and still invokes the dynamic stage,
refuting "record a fetch ErrorEntry and return immediately". -/
theorem C4_counterexample :
    (scrapeEngine "https://example.com" (some true) 3 envStaticFail).errors = [] ∧
    (scrapeEngine "https://example.com" (some true) 3 envStaticFail).trace =
      [StageEv.staticFetch, StageEv.dynamicFetch] :=
  ⟨by decide, by decide⟩

/-- C4 (amended): when the static fetch fails no `ErrorEntry` is recorded; the
dynamic stage runs exactly when `use_js` is truthy (the low-content branch
requires static success), and when it does not run the result has empty
sections. -/
theorem C4_static_failure (env : FetchEnv) (url : String) (useJs : Option Bool) (d : Nat)
    (hvalid : is_valid_url (clean_url url) = true)
    (hfail : env.staticPage = none) :
    (scrapeEngine url useJs d env).errors = [] ∧
    (StageEv.dynamicFetch ∈ (scrapeEngine url useJs d env).trace ↔ optTrue useJs = true) ∧
    (optTrue useJs = false → (scrapeEngine url useJs d env).sections = []) := by
  unfold scrapeEngine scrapeInternal
  have hurl : (engineInit url useJs d).url = clean_url url := rfl
  rw [hurl, hvalid]
  simp only [not_true, if_false]
  unfold staticStage
  rw [hfail]
  simp only [Bool.false_and, Bool.or_false]
  cases hj : optTrue useJs with
  | true =>
    simp only [if_true]
    unfold dynamicStage
    cases env.dynamicPage with
    | none => exact ⟨rfl, by simp [engineInit], by simp [hj]⟩
    | some page =>
      refine ⟨?_, ?_, by simp [hj]⟩
      · by_cases hh : page.html ≠ "" <;> simp [hh, engineInit]
      · by_cases hh : page.html ≠ "" <;> simp [hh, engineInit]
  | false =>
    simp only [if_false]
    exact ⟨rfl, by simp [engineInit], fun _ => rfl⟩

/-- C4 witness: static failure without `forceDynamic` leaves no errors, no
dynamic stage, and empty sections. -/
theorem C4_static_failure_witness :
    (scrapeEngine "https://example.com" none 3 envStaticFail).errors = [] ∧
    (StageEv.dynamicFetch ∈ (scrapeEngine "https://example.com" none 3 envStaticFail).trace ↔
      optTrue none = true) ∧
    (optTrue none = false →
      (scrapeEngine "https://example.com" none 3 envStaticFail).sections = []) :=
  C4_static_failure envStaticFail "https://example.com" none 3 (by decide) rfl

/-- C5 counterexample: `scrape("ftp://x.com")` does **not** yield a validation
error. `clean_url` mangles the URL to `"https://ftp://x.com"`, which
`is_valid_url` accepts (scheme `https`, netloc `ftp:`), so the static fetch is
attempted with no validation `ErrorEntry`. -/
theorem C5_counterexample :
    clean_url "ftp://x.com" = "https://ftp://x.com" ∧
    is_valid_url (clean_url "ftp://x.com") = true ∧
    (scrapeEngine "ftp://x.com" none 3 envStaticFail).errors = [] ∧
    (scrapeEngine "ftp://x.com" none 3 envStaticFail).trace = [StageEv.staticFetch] :=
  ⟨by decide, by decide, by decide, by decide⟩

/-- C5 (amended): the engine cleans the URL (trim; prepend `https://` whenever
the input does not already start with `http://` or `https://`, even when
another scheme is present; strip trailing slashes) and rejects it exactly when
the **cleaned** URL fails `is_valid_url`; in that case one validation
`ErrorEntry` is recorded and the run ends with empty sections before any
fetch. -/
theorem C5_validation_reject (url : String) (useJs : Option Bool) (d : Nat) (env : FetchEnv)
    (h : is_valid_url (clean_url url) = false) :
    (scrapeEngine url useJs d env).errors =
      [{ message := "Invalid URL", phase := "validation" }] ∧
    (scrapeEngine url useJs d env).sections = [] ∧
    (scrapeEngine url useJs d env).trace = [] := by
  unfold scrapeEngine scrapeInternal
  have hurl : (engineInit url useJs d).url = clean_url url := rfl
  rw [hurl, h]
  simp [engineInit]

/-- C5 witness: the empty URL cleans to itself and fails validation, so the
run records exactly one validation error and attempts nothing. -/
theorem C5_validation_reject_witness :
    (scrapeEngine "" none 3 envStaticFail).errors =
      [{ message := "Invalid URL", phase := "validation" }] ∧
    (scrapeEngine "" none 3 envStaticFail).sections = [] ∧
    (scrapeEngine "" none 3 envStaticFail).trace = [] :=
  C5_validation_reject "" none 3 envStaticFail (by decide)

/-! ### Claim C7: pagination depth -/

/-- An oracle with an unlimited supply of fresh "next" pages. -/
def nextAlways : Nat → Option String := fun i => some (toString i)

/-- C7 counterexample: the hop bound is `config.MAX_DEPTH - 1 = 2` from the
process-wide configuration, not from the per-call input: a run whose caller
passed max depth 1 still performs 2 hops (the engine discards its `max_depth`
argument, as the state equality shows). -/
theorem C7_counterexample :
    (handlePagination config.MAX_DEPTH nextAlways ["https://start.example"]).2 = 2 ∧
    (2 : Nat) ≠ 1 - 1 ∧
    scrapeEngine "https://example.com" none 1 envStaticFail =
      scrapeEngine "https://example.com" none 5 envStaticFail :=
  ⟨by decide, by decide, rfl⟩

lemma paginationLoop_le (next : Nat → Option String) :
    ∀ (k i : Nat) (v : List String), (paginationLoop next k i v).2 ≤ k := by
  intro k
  induction k with
  | zero => intro i v; simp [paginationLoop]
  | succ k ih =>
    intro i v
    rw [paginationLoop]
    cases next i with
    | none => simp
    | some u =>
      simp only []
      exact Nat.succ_le_succ (ih (i + 1) _)

/-- C7 (amended): the pagination loop performs at most
`config.MAX_DEPTH - 1` hops where `MAX_DEPTH` is the process-wide configured
value; with a configured depth of 1 no hop is attempted; the per-call max
depth input is accepted by the engine and ignored (its result does not depend
on it). -/
theorem C7_pagination_depth (next : Nat → Option String) (md : Nat) (v : List String)
    (url : String) (useJs : Option Bool) (d d' : Nat) (env : FetchEnv) :
    (handlePagination md next v).2 ≤ md - 1 ∧
    (md = 1 → (handlePagination md next v).2 = 0) ∧
    scrapeEngine url useJs d env = scrapeEngine url useJs d' env := by
  refine ⟨paginationLoop_le next (md - 1) 0 v, fun hmd => ?_, rfl⟩
  subst hmd
  rfl

/-- C7 witness: with configured depth 1 the loop performs no hop, even when a
next page is always available. -/
theorem C7_pagination_depth_witness :
    (handlePagination 1 nextAlways ["https://start.example"]).2 = 0 :=
  (C7_pagination_depth nextAlways 1 ["https://start.example"]
    "https://example.com" none 1 2 envStaticFail).2.1 rfl

/-! ### Claim C8: infinite-scroll convergence -/

/-- A strictly decreasing height sequence. -/
def decHeights : Nat → Int := fun i => 10 - (i : Int)

/-- C8 counterexample: the loop stops only when the height is **unchanged**;
on a strictly decreasing height sequence (every iteration's height fails to
increase) it still exhausts the full budget of 3 instead of stopping at 1. -/
theorem C8_counterexample :
    scrollForContent decHeights config.SCROLL_ATTEMPTS = 3 ∧
    decHeights 1 < decHeights 0 ∧ (3 : Nat) ≠ 1 :=
  ⟨by decide, by decide, by decide⟩

lemma scrollLoop_stop (heights : Nat → Int) :
    ∀ (m k i : Nat), m < k → heights (i + 2 * m + 1) = heights (i + 2 * m) →
      (∀ j < m, heights (i + 2 * j + 1) ≠ heights (i + 2 * j)) →
      scrollLoop heights k i = m + 1 := by
  intro m
  induction m with
  | zero =>
    intro k i hk heq hne0
    clear hne0
    cases k with
    | zero => omega
    | succ k' =>
      rw [scrollLoop]
      rw [if_pos (by simpa using heq)]
  | succ m ih =>
    intro k i hk heq hne
    cases k with
    | zero => omega
    | succ k' =>
      rw [scrollLoop]
      have h0 : ¬ heights (i + 1) = heights i := by simpa using hne 0 (Nat.succ_pos m)
      rw [if_neg h0]
      have heq' : heights ((i + 2) + 2 * m + 1) = heights ((i + 2) + 2 * m) := by
        have e1 : (i + 2) + 2 * m + 1 = i + 2 * (m + 1) + 1 := by omega
        have e2 : (i + 2) + 2 * m = i + 2 * (m + 1) := by omega
        rw [e1, e2]; exact heq
      have hne' : ∀ j < m, heights ((i + 2) + 2 * j + 1) ≠ heights ((i + 2) + 2 * j) := by
        intro j hj
        have e1 : (i + 2) + 2 * j + 1 = i + 2 * (j + 1) + 1 := by omega
        have e2 : (i + 2) + 2 * j = i + 2 * (j + 1) := by omega
        rw [e1, e2]
        exact hne (j + 1) (by omega)
      rw [ih k' (i + 2) (by omega) heq' hne']
      omega

lemma scrollLoop_all (heights : Nat → Int) :
    ∀ (k i : Nat), (∀ j < k, heights (i + 2 * j + 1) ≠ heights (i + 2 * j)) →
      scrollLoop heights k i = k := by
  intro k
  induction k with
  | zero => intro i _; rfl
  | succ k' ih =>
    intro i hne
    rw [scrollLoop]
    have h0 : ¬ heights (i + 1) = heights i := by simpa using hne 0 (Nat.succ_pos k')
    rw [if_neg h0]
    have hne' : ∀ j < k', heights ((i + 2) + 2 * j + 1) ≠ heights ((i + 2) + 2 * j) := by
      intro j hj
      have e1 : (i + 2) + 2 * j + 1 = i + 2 * (j + 1) + 1 := by omega
      have e2 : (i + 2) + 2 * j = i + 2 * (j + 1) := by omega
      rw [e1, e2]
      exact hne (j + 1) (by omega)
    rw [ih (i + 2) hne']
    omega

/-- C8 (amended): the scroll loop increments its counter each iteration and
stops early the first time the re-measured height **equals** the previous
measurement (a strict decrease does not stop it); with no equal pair it runs
the full attempt budget. Measurement `2*j` is iteration `j`'s height before
scrolling and `2*j + 1` the height after. -/
theorem C8_scroll_convergence (heights : Nat → Int) (attempts k : Nat) :
    (k < attempts → heights (2 * k + 1) = heights (2 * k) →
      (∀ j < k, heights (2 * j + 1) ≠ heights (2 * j)) →
      scrollForContent heights attempts = k + 1) ∧
    ((∀ j < attempts, heights (2 * j + 1) ≠ heights (2 * j)) →
      scrollForContent heights attempts = attempts) := by
  constructor
  · intro hk heq hne
    exact scrollLoop_stop heights k attempts 0 hk (by simpa using heq)
      (fun j hj => by simpa using hne j hj)
  · intro hne
    exact scrollLoop_all heights attempts 0 (fun j hj => by simpa using hne j hj)

/-- A height sequence that grows once and then stalls. -/
def stallHeights : Nat → Int := fun i => if i = 0 then 100 else 200

/-- C8 witness: a sequence whose height stops growing after 2 iterations
terminates with a scroll count of 2, not the full budget of 3. -/
theorem C8_scroll_convergence_witness :
    scrollForContent stallHeights config.SCROLL_ATTEMPTS = 2 :=
  (C8_scroll_convergence stallHeights config.SCROLL_ATTEMPTS 1).1
    (by decide) (by decide) (by decide)

/-! ### Claim C9: candidate discovery order -/

/-- The position of a node's tag in the parser's fixed landmark-tag order. -/
def tagRank (n : Node) : Nat := landmarkTags.indexOf n.tagName

/-- The element tags of a node list, in order (text nodes skipped). -/
def elemTagsOf (l : List Node) : List String :=
  l.filterMap (fun n => match n with
    | Node.elem t _ _ => some t
    | Node.txt _ => none)

/-- The fingerprint oracle `length` (injective enough for the concrete runs). -/
def hLen : String → Int := fun s => (s.length : Int)

/-- A document in which a `section` element precedes a `main` element. -/
def docOrd : List Node :=
  [Node.elem "html" [] [Node.elem "body" [] [
    Node.elem "section" [] [Node.txt "First section content here"],
    Node.elem "main" [] [Node.txt "Main body content here"]]]]

/-- C9 counterexample: in the document the `section` element precedes the
`main` element, yet the emitted sections put the `main`-derived section first —
discovery iterates tag by tag, not in document order. -/
theorem C9_counterexample :
    ((parseSections docOrd "https://example.com" hLen).map (fun s => s.type)) =
      ["main", "section"] ∧
    elemTagsOf (Node.descList docOrd) = ["html", "body", "section", "main"] :=
  ⟨by decide, by decide⟩

lemma tagIs_eq {t : String} {n : Node} (h : tagIs t n = true) : n.tagName = t := by
  cases n with
  | txt s => simp [tagIs, Node.isElemOf] at h
  | elem tg attrs cs =>
    simp [tagIs, Node.isElemOf] at h
    simpa [Node.tagName] using h

lemma tagIs_false {t t' : String} {n : Node} (h : n.tagName = t') (hne : t' ≠ t) :
    tagIs t n = false := by
  cases hb : tagIs t n with
  | false => rfl
  | true => exact absurd (h.symm.trans (tagIs_eq hb)) hne

lemma pairwise_of_mem_rel {α : Type} {R : α → α → Prop} :
    ∀ l : List α, (∀ a ∈ l, ∀ b ∈ l, R a b) → List.Pairwise R l
  | [], _ => List.Pairwise.nil
  | a :: l, h =>
    List.Pairwise.cons (fun b hb => h a (by simp) b (by simp [hb]))
      (pairwise_of_mem_rel l (fun x hx y hy => h x (by simp [hx]) y (by simp [hy])))

lemma mem_semantic_group {t : String} {soup : List Node} {c : Node × String}
    (hc : c ∈ ((Node.descList soup).filter (tagIs t)).map (fun el => (el, renderNode el))) :
    tagRank c.1 = landmarkTags.indexOf t := by
  rw [List.mem_map] at hc
  obtain ⟨el, hel, rfl⟩ := hc
  rw [tagRank, tagIs_eq (List.mem_filter.mp hel).2]

lemma pairwise_rank_flatMap (soup : List Node) :
    ∀ ts : List String,
      List.Pairwise (fun a b => landmarkTags.indexOf a ≤ landmarkTags.indexOf b) ts →
      List.Pairwise (fun a b : Node × String => tagRank a.1 ≤ tagRank b.1)
        (ts.flatMap (fun t =>
          ((Node.descList soup).filter (tagIs t)).map (fun el => (el, renderNode el)))) := by
  intro ts
  induction ts with
  | nil => intro _; simp
  | cons t ts ih =>
    intro hp
    rw [List.flatMap_cons, List.pairwise_append]
    obtain ⟨hhead, htail⟩ := List.pairwise_cons.mp hp
    refine ⟨?_, ih htail, ?_⟩
    · refine pairwise_of_mem_rel _ (fun a ha b hb => ?_)
      rw [mem_semantic_group ha, mem_semantic_group hb]
    · intro a ha b hb
      rw [List.mem_flatMap] at hb
      obtain ⟨t', ht', hb'⟩ := hb
      rw [mem_semantic_group ha, mem_semantic_group hb']
      exact hhead t' ht'

lemma map_fst_pairs (l : List Node) :
    (l.map (fun el => (el, renderNode el))).map (fun c : Node × String => c.1) = l := by
  induction l with
  | nil => rfl
  | cons x xs ih => simp [ih]

lemma filter_map_group (t t' : String) (soup : List Node) :
    ((((Node.descList soup).filter (tagIs t')).map
        (fun el => (el, renderNode el))).map (fun c => c.1)).filter (tagIs t) =
      if t' = t then (Node.descList soup).filter (tagIs t) else [] := by
  rw [map_fst_pairs]
  by_cases he : t' = t
  · subst he
    rw [if_pos rfl, List.filter_filter]
    simp
  · rw [if_neg he]
    rw [List.filter_eq_nil_iff]
    intro a ha
    have := tagIs_false (tagIs_eq (List.mem_filter.mp ha).2) he
    simp [this]

lemma filter_concat_groups_nil (soup : List Node) (t : String) :
    ∀ ts : List String, t ∉ ts →
      ((ts.flatMap (fun t' => ((Node.descList soup).filter (tagIs t')).map
          (fun el => (el, renderNode el)))).map (fun c => c.1)).filter (tagIs t) = [] := by
  intro ts
  induction ts with
  | nil => intro _; rfl
  | cons t' ts ih =>
    intro hni
    rw [List.flatMap_cons, List.map_append, List.filter_append,
      filter_map_group t t' soup,
      if_neg (fun he => by subst he; exact hni (List.mem_cons_self _ _)),
      ih (fun hin => hni (List.mem_cons_of_mem t' hin))]
    rfl

lemma filter_concat_groups (soup : List Node) (t : String) :
    ∀ ts : List String, ts.Nodup → t ∈ ts →
      ((ts.flatMap (fun t' => ((Node.descList soup).filter (tagIs t')).map
          (fun el => (el, renderNode el)))).map (fun c => c.1)).filter (tagIs t) =
        (Node.descList soup).filter (tagIs t) := by
  intro ts
  induction ts with
  | nil => intro _ h; simp at h
  | cons t' ts ih =>
    intro hnd hmem
    rw [List.flatMap_cons, List.map_append, List.filter_append]
    rcases List.mem_cons.mp hmem with heq | hmem'
    · subst heq
      rw [filter_map_group t t soup, if_pos rfl,
        filter_concat_groups_nil soup t ts (List.nodup_cons.mp hnd).1]
      simp
    · have hne : t' ≠ t := fun he => (List.nodup_cons.mp hnd).1 (he.symm ▸ hmem')
      rw [filter_map_group t t' soup, if_neg hne,
        ih (List.nodup_cons.mp hnd).2 hmem']
      rfl

/-- C9 (amended): `_find_semantic_sections` discovers candidates grouped by
tag in the fixed order main, section, article, nav, aside, footer, header
(the tag rank is monotone along the returned list), and within one tag the
candidates appear in document order (the sub-list of a given tag equals the
document-order filter of the tree); global document order across different
tags is not preserved. -/
theorem C9_discovery_order (soup : List Node) :
    List.Pairwise (fun a b : Node × String => tagRank a.1 ≤ tagRank b.1)
      (findSemanticSections soup) ∧
    ∀ t ∈ landmarkTags,
      ((findSemanticSections soup).map (fun c => c.1)).filter (tagIs t) =
        (Node.descList soup).filter (tagIs t) := by
  constructor
  · exact pairwise_rank_flatMap soup landmarkTags (by decide)
  · intro t ht
    exact filter_concat_groups soup t landmarkTags (by decide) ht

/-- C9 witness: on the concrete two-landmark document, the `section`-tagged
candidates of the discovery list equal the document-order `section` filter. -/
theorem C9_discovery_order_witness :
    ((findSemanticSections docOrd).map (fun c => c.1)).filter (tagIs "section") =
      (Node.descList docOrd).filter (tagIs "section") :=
  (C9_discovery_order docOrd).2 "section" (by decide)

end Scraper
